import Mathlib

/-!
Shallow embedding of the foreign-key check / cascade engine of
`executor/foreign_key.go` (FKCheckExec, FKCascadeExec, fkValueHelper),
together with proofs about the resulting definitions.

Modelling conventions:
* `kv.Key` and values are byte strings, modelled as `List Nat`.
* The transaction's uncommitted write buffer (`kv.MemBuffer`) and the
  committed snapshot (`kv.Snapshot`) are ordered association lists
  `List (Key × Value)`; an empty value in the write buffer is a tombstone.
* The iterator `Iter(key, key.PrefixNext())` over an ordered store is
  modelled by the ordered sub-list of entries whose key has `key` as a
  prefix (`pfxEntries`): for byte strings the half-open range
  `[key, key.PrefixNext())` contains exactly the keys extending `key`.
* `txn.Get` goes through the union of write buffer and snapshot; an empty
  buffered value means the key was deleted in this transaction and `Get`
  reports not-found for it.  Per-key storage faults are modelled by
  `GetResult.storageFault`.  `txn.BatchGet` is only a best-effort cache
  warm-up (it returns partial results); its failure is modelled by the
  separate `Txn.batchGetOk` flag.
* `types.Datum` is restricted to the kinds the engine distinguishes;
  `codec.EncodeKey`, used only to obtain a comparable dedup key for a
  value tuple, is injective on datum tuples and is modelled by the tuple
  itself.  `tablecodec` record-key/index-key construction and
  `DecodeIndexHandle`-based lock-key derivation are collaborator
  functions outside this repository and are abstract fields of `FKCfg`.
* Context cancellation, the `ScanBatchSize` snapshot hint and the
  `ForUpdate`/lock session bookkeeping have no effect on the checked
  properties and are not modelled.
-/

namespace FK

abbrev Key := List Nat

abbrev Value := List Nat

abbrev Store := List (Key × Value)

/-- Result of a single transactional point read (`txn.Get`). -/
inductive GetResult where
  | found : Value → GetResult
  | notFound : GetResult
  | storageFault : GetResult
deriving DecidableEq, Repr

/-- The error outcomes the engine distinguishes: `failedErr` is the
constraint-violation fault `fkc.FailedErr`; `storageErr` stands for any
propagated transaction read/scan failure; `indexOutOfBound` is
`table.ErrIndexOutBound` from `fetchFKValues`; `cascadeErr` is the
cascade-generation fault of `buildFKCascadePlan`. -/
inductive FKError where
  | failedErr : FKError
  | storageErr : FKError
  | indexOutOfBound : FKError
  | cascadeErr : FKError
deriving DecidableEq, Repr

/-- The transaction as seen by the check engine: a per-key point-read
function and a flag telling whether the best-effort `BatchGet` cache
warm-up succeeds. -/
structure Txn where
  get : Key → GetResult
  batchGetOk : Bool

/-- Association-list lookup with decidable key equality (models a Go map
or the per-key view of an ordered store). -/
def alookup {β : Type} : List (Key × β) → Key → Option β
  | [], _ => none
  | e :: rest, k => if e.1 = k then some e.2 else alookup rest k

/-- Membership test for a set of keys (models `util/set.StringSet`). -/
def memKey (l : List Key) (k : Key) : Bool :=
  l.any (fun x => decide (x = k))

/-- `types.Datum`, restricted to the kinds the engine distinguishes.
Float and decimal payloads are carried as their rendered strings. -/
inductive Datum where
  | null : Datum
  | int64 : Int → Datum
  | uint64 : Nat → Datum
  | float : String → Datum
  | decimal : String → Datum
  | str : String → Datum
deriving DecidableEq, Repr

/-- `Datum.IsNull`. -/
def Datum.isNull : Datum → Bool
  | .null => true
  | _ => false

/-- `Datum.ToString` on the modelled kinds (`KindNull` never reaches the
rendering paths because null tuples are filtered out earlier). -/
def Datum.toStr : Datum → String
  | .null => ""
  | .int64 i => toString i
  | .uint64 n => toString n
  | .float s => s
  | .decimal s => s
  | .str s => s

/-- `genFKValueString`: numeric and decimal kinds are rendered bare, all
other kinds single-quoted. -/
def genFKValueString (v : Datum) : String :=
  match v with
  | .int64 _ => v.toStr
  | .uint64 _ => v.toStr
  | .float _ => v.toStr
  | .decimal _ => v.toStr
  | _ => "\x27" ++ v.toStr ++ "\x27"

/-- The backtick-quoted column list written between `WHERE (` and `)`:
`fk.Cols` joined by `", "`. -/
def colListStr : List String → String
  | [] => ""
  | c :: cs => "`" ++ c ++ "`" ++ String.join (cs.map (fun c2 => ", `" ++ c2 ++ "`"))

/-- One value tuple rendered inside its parentheses: values joined by `","`. -/
def valTupleStr : List Datum → String
  | [] => ""
  | v :: vs => genFKValueString v ++ String.join (vs.map (fun v2 => "," ++ genFKValueString v2))

/-- The rendered `IN` list body: first tuple written as `"(" …`, later
tuples as `", (" …`, each closed with `")"`. -/
def tuplesStr : List (List Datum) → String
  | [] => ""
  | vs :: rest =>
    "(" ++ valTupleStr vs ++ ")" ++
      String.join (rest.map (fun vs2 => ", (" ++ valTupleStr vs2 ++ ")"))

/-- `GenCascadeDeleteSQL` over lower-cased schema/table/column names.
The source's only error path is `Datum.ToString`, which cannot fail on
the modelled kinds, so the result is the plain string. -/
def GenCascadeDeleteSQL (schemaL tableL : String) (colsL : List String)
    (fkValues : List (List Datum)) : String :=
  "DELETE FROM `" ++ schemaL ++ "`.`" ++ tableL ++ "` WHERE (" ++
    colListStr colsL ++ ") IN (" ++ tuplesStr fkValues ++ ")"

end FK

namespace FK

/-! ## Value extraction and dedup (`fkValueHelper`) -/

/-- `fkValueHelper.hasNullValue`. -/
def hasNullValue (vals : List Datum) : Bool :=
  vals.any Datum.isNull

/-- `fkValueHelper.fetchFKValues`: project the row onto the configured
column offsets; an out-of-range offset is `table.ErrIndexOutBound`. -/
def fetchFKValues : List Nat → List Datum → Except FKError (List Datum)
  | [], _ => .ok []
  | o :: os, row =>
    match row[o]? with
    | none => .error .indexOutOfBound
    | some d =>
      match fetchFKValues os row with
      | .error e => .error e
      | .ok vals => .ok (d :: vals)

/-- `fkValueHelper.fetchFKValuesWithCheck`, with the dedup set threaded
explicitly.  `codec.EncodeKey` (injective on datum tuples) is modelled
by the tuple itself, so the set holds tuples.  Returns the empty tuple
(`len(vals) == 0` in the source) for a null-containing or already-seen
tuple, leaving the set untouched in both cases. -/
def fetchFKValuesWithCheck (fkValuesSet : List (List Datum)) (colsOffsets : List Nat)
    (row : List Datum) : Except FKError (List Datum × List (List Datum)) :=
  match fetchFKValues colsOffsets row with
  | .error e => .error e
  | .ok vals =>
    if hasNullValue vals then .ok ([], fkValuesSet)
    else if fkValuesSet.contains vals then .ok ([], fkValuesSet)
    else .ok (vals, vals :: fkValuesSet)

/-! ## Key construction -/

/-- The per-constraint configuration of an `FKCheckExec` /
`FKCascadeExec`: the plan-time flags plus the collaborator functions
(`tablecodec` record-key encoding, `Idx.GenIndexKey`, and the
`DecodeIndexHandle`+`EncodeRecordKey` lock-key derivation of
`checkPrefixKeyExist`) which live outside this repository and are kept
abstract. -/
structure FKCfg where
  checkExist : Bool
  idxIsPrimaryKey : Bool
  idxIsExclusive : Bool
  colsOffsets : List Nat
  recordKeyOf : List Datum → Key
  genIndexKey : List Datum → Key × Bool
  lockKeyOfEntry : Key → Value → Key

/-- `buildCheckKeyFromFKValue`: for a primary-key match build the record
key (`buildHandleFromFKValues` + `EncodeRecordKey`, abstracted as
`recordKeyOf`), a prefix exactly when the key is not exclusive; for an
index match build the index key, a point key exactly when the generated
key is distinct and the index is exclusive. -/
def buildCheckKeyFromFKValue (cfg : FKCfg) (vals : List Datum) : Key × Bool :=
  if cfg.idxIsPrimaryKey then
    let key := cfg.recordKeyOf vals
    if cfg.idxIsExclusive then (key, false) else (key, true)
  else
    let (key, distinct) := cfg.genIndexKey vals
    if distinct && cfg.idxIsExclusive then (key, false) else (key, true)

/-! ## Row hooks of `FKCheckExec` -/

/-- The mutable accumulation state of one `FKCheckExec`. -/
structure FKCheckState where
  fkValuesSet : List (List Datum)
  toBeCheckedKeys : List Key
  toBeCheckedPrefixKeys : List Key
deriving DecidableEq, Repr

/-- `FKCheckExec.addRowNeedToCheck`: dedup-extract the values, build the
check key, and append it to the point or the prefix queue. -/
def addRowNeedToCheck (cfg : FKCfg) (st : FKCheckState) (row : List Datum) :
    Except FKError FKCheckState :=
  match fetchFKValuesWithCheck st.fkValuesSet cfg.colsOffsets row with
  | .error e => .error e
  | .ok (vals, set2) =>
    if vals.isEmpty then .ok { st with fkValuesSet := set2 }
    else
      let (key, isPfx) := buildCheckKeyFromFKValue cfg vals
      if isPfx then
        .ok { fkValuesSet := set2, toBeCheckedKeys := st.toBeCheckedKeys,
              toBeCheckedPrefixKeys := st.toBeCheckedPrefixKeys ++ [key] }
      else
        .ok { fkValuesSet := set2, toBeCheckedKeys := st.toBeCheckedKeys ++ [key],
              toBeCheckedPrefixKeys := st.toBeCheckedPrefixKeys }

/-! ## Point-key checking -/

/-- `checkKeyExist`: a live read appends the key to `toBeLockedKeys`; a
not-found read is the constraint violation; anything else propagates. -/
def checkKeyExist (txn : Txn) (k : Key) (locked : List Key) :
    Except FKError (List Key) :=
  match txn.get k with
  | .found _ => .ok (locked ++ [k])
  | .notFound => .error .failedErr
  | .storageFault => .error .storageErr

/-- `checkKeyNotExist`: a live read is the constraint violation; a
not-found read is fine; anything else propagates.  Never locks. -/
def checkKeyNotExist (txn : Txn) (k : Key) (locked : List Key) :
    Except FKError (List Key) :=
  match txn.get k with
  | .found _ => .error .failedErr
  | .notFound => .ok locked
  | .storageFault => .error .storageErr

/-- `checkKey`: dispatch on the constraint direction `CheckExist`. -/
def checkKey (checkExist : Bool) (txn : Txn) (k : Key) (locked : List Key) :
    Except FKError (List Key) :=
  if checkExist then checkKeyExist txn k locked
  else checkKeyNotExist txn k locked

/-- The per-key loop of `checkKeys`, threading `toBeLockedKeys`. -/
def checkKeysLoop (checkExist : Bool) (txn : Txn) :
    List Key → List Key → Except FKError (List Key)
  | [], locked => .ok locked
  | k :: ks, locked =>
    match checkKey checkExist txn k locked with
    | .error e => .error e
    | .ok locked2 => checkKeysLoop checkExist txn ks locked2

/-- `checkKeys`: nothing to do on an empty queue; otherwise prefetch all
point keys via `BatchGet` (best-effort warm-up whose own failure
propagates), then decide each key in order. -/
def checkKeys (checkExist : Bool) (txn : Txn) (keys : List Key)
    (locked : List Key) : Except FKError (List Key) :=
  if keys.isEmpty then .ok locked
  else if txn.batchGetOk then checkKeysLoop checkExist txn keys locked
  else .error .storageErr

/-! ## Prefix-key checking (merge-scan) -/

/-- The entries an iterator over `[key, key.PrefixNext())` yields from an
ordered store: exactly the entries whose key extends `key`, in store
order. -/
def pfxEntries (store : Store) (key : Key) : Store :=
  store.filter (fun e => key.isPrefixOf e.1)

/-- The write-buffer phase of `getIndexKeyValueInTable`: walk the local
range, stop at the first key without the prefix, return the first entry
with a non-empty value, and record tombstoned keys in `deletedKeys`. -/
def memScanLoop (key : Key) : Store → List Key → Option (Key × Value) × List Key
  | [], deleted => (none, deleted)
  | (k, v) :: rest, deleted =>
    if key.isPrefixOf k then
      if v.isEmpty then memScanLoop key rest (k :: deleted)
      else (some (k, v), deleted)
    else (none, deleted)

/-- The snapshot phase of `getIndexKeyValueInTable`: walk the committed
range, stop at the first key without the prefix, and return the first
entry whose key is not in the local skip-set. -/
def snapScanLoop (key : Key) (deleted : List Key) : Store → Option (Key × Value)
  | [] => none
  | (k, v) :: rest =>
    if key.isPrefixOf k then
      if memKey deleted k then snapScanLoop key deleted rest
      else some (k, v)
    else none

/-- `getIndexKeyValueInTable`: the ordered two-source merge-scan.  A live
local entry wins outright; otherwise the snapshot is scanned with the
local tombstones skipped; `none` models the `(nil, nil, nil)` return. -/
def getIndexKeyValueInTable (memBuffer snap : Store) (key : Key) :
    Option (Key × Value) :=
  match memScanLoop key (pfxEntries memBuffer key) [] with
  | (some kv, _) => some kv
  | (none, deleted) => snapScanLoop key deleted (pfxEntries snap key)

/-- `checkPrefixKeyExist`: a missing entry is the constraint violation; a
live one contributes its lock key (either the matched key itself for a
clustered primary index, or the derived record key — both covered by
`lockKeyOfEntry`). -/
def checkPrefixKeyExist (cfg : FKCfg) (k : Key) (v : Value) (locked : List Key) :
    Except FKError (List Key) :=
  if v.isEmpty then .error .failedErr
  else .ok (locked ++ [cfg.lockKeyOfEntry k v])

/-- `checkPrefixKey`: resolve the prefix via the merge-scan (a `none`
result models the source's nil key/value), then apply the existence
policy. -/
def checkPrefixKey (cfg : FKCfg) (memBuffer snap : Store) (key : Key)
    (locked : List Key) : Except FKError (List Key) :=
  let r := getIndexKeyValueInTable memBuffer snap key
  let k := (r.map (fun kv => kv.1)).getD []
  let v := (r.map (fun kv => kv.2)).getD []
  if cfg.checkExist then checkPrefixKeyExist cfg k v locked
  else if v.isEmpty then .ok locked
  else .error .failedErr

/-- The per-key loop of `checkIndexKeys`. -/
def checkIndexKeysLoop (cfg : FKCfg) (memBuffer snap : Store) :
    List Key → List Key → Except FKError (List Key)
  | [], locked => .ok locked
  | k :: ks, locked =>
    match checkPrefixKey cfg memBuffer snap k locked with
    | .error e => .error e
    | .ok locked2 => checkIndexKeysLoop cfg memBuffer snap ks locked2

/-- `checkIndexKeys` (the transient `ScanBatchSize` hint it sets and
restores does not change results and is not modelled). -/
def checkIndexKeys (cfg : FKCfg) (memBuffer snap : Store) (keys : List Key)
    (locked : List Key) : Except FKError (List Key) :=
  if keys.isEmpty then .ok locked
  else checkIndexKeysLoop cfg memBuffer snap keys locked

/-- The resolution phase of `doCheck`: `checkKeys` over the point queue
then `checkIndexKeys` over the prefix queue, producing the final
`toBeLockedKeys` (the subsequent `doLockKeys` call and the `ForUpdate`
save/restore are session collaborators outside this repository). -/
def doCheckLocked (cfg : FKCfg) (txn : Txn) (memBuffer snap : Store)
    (ptKeys pfxKeys : List Key) : Except FKError (List Key) :=
  match checkKeys cfg.checkExist txn ptKeys [] with
  | .error e => .error e
  | .ok l1 => checkIndexKeys cfg memBuffer snap pfxKeys l1

end FK

namespace FK

/-! ## Tolerant batch path (`checkRows`) -/

/-- `toBeCheckedRow`, restricted to the fields `checkRows` touches. -/
structure PendingRow where
  row : List Datum
  ignored : Bool
deriving DecidableEq, Repr

/-- The first loop of `checkRows`: per non-ignored row, fetch the values
(without the dedup set — `checkRows` calls `fetchFKValues` directly),
skip null tuples, build the check key, and collect every point key into
the prefetch list.  The result pairs each row with its `fkCheckKey`
slot (`none` models the nil slot of skipped rows). -/
def buildFKCheckKeys (cfg : FKCfg) :
    List PendingRow → Except FKError (List (PendingRow × Option (Key × Bool)) × List Key)
  | [] => .ok ([], [])
  | r :: rest =>
    if r.ignored then
      match buildFKCheckKeys cfg rest with
      | .error e => .error e
      | .ok (zs, pks) => .ok ((r, none) :: zs, pks)
    else
      match fetchFKValues cfg.colsOffsets r.row with
      | .error e => .error e
      | .ok vals =>
        if hasNullValue vals then
          match buildFKCheckKeys cfg rest with
          | .error e => .error e
          | .ok (zs, pks) => .ok ((r, none) :: zs, pks)
        else
          let kp := buildCheckKeyFromFKValue cfg vals
          match buildFKCheckKeys cfg rest with
          | .error e => .error e
          | .ok (zs, pks) =>
            .ok ((r, some kp) :: zs, if kp.2 then pks else kp.1 :: pks)

/-- The verdict loop of `checkRows`.  Output: the rows with updated
`ignored` flags, the final `checkRowsCache`, the number of warnings
appended to the statement context, and (ghost instrumentation) the
number of point/prefix resolutions performed against the transaction.
The cache is an association list consulted front-first, so consing
models a map store; on a failed check the source stores `true` and then
unconditionally overwrites it with `false`, modelled by the two conses. -/
def checkRowsLoop (cfg : FKCfg) (txn : Txn) (memBuffer snap : Store) :
    List (PendingRow × Option (Key × Bool)) → List (Key × Bool) → Nat → Nat →
      List PendingRow × List (Key × Bool) × Nat × Nat
  | [], cache, warns, res => ([], cache, warns, res)
  | (r, none) :: rest, cache, warns, res =>
    let t := checkRowsLoop cfg txn memBuffer snap rest cache warns res
    (r :: t.1, t.2)
  | (r, some kp) :: rest, cache, warns, res =>
    match alookup cache kp.1 with
    | some ignore =>
      if ignore then
        let t := checkRowsLoop cfg txn memBuffer snap rest cache (warns + 1) res
        ({ r with ignored := true } :: t.1, t.2)
      else
        let t := checkRowsLoop cfg txn memBuffer snap rest cache warns res
        (r :: t.1, t.2)
    | none =>
      let chk := if kp.2 then checkPrefixKey cfg memBuffer snap kp.1 []
                 else checkKey cfg.checkExist txn kp.1 []
      match chk with
      | .error _ =>
        let t := checkRowsLoop cfg txn memBuffer snap rest
          ((kp.1, false) :: (kp.1, true) :: cache) (warns + 1) (res + 1)
        ({ r with ignored := true } :: t.1, t.2)
      | .ok _ =>
        let t := checkRowsLoop cfg txn memBuffer snap rest
          ((kp.1, false) :: cache) warns (res + 1)
        (r :: t.1, t.2)

/-- `checkRows`: empty batches are a no-op; otherwise build all check
keys, prefetch the point keys when there are any, and run the verdict
loop over a fresh cache. -/
def checkRows (cfg : FKCfg) (txn : Txn) (memBuffer snap : Store)
    (rows : List PendingRow) :
    Except FKError (List PendingRow × List (Key × Bool) × Nat × Nat) :=
  if rows.isEmpty then .ok (rows, [], 0, 0)
  else
    match buildFKCheckKeys cfg rows with
    | .error e => .error e
    | .ok (zs, pks) =>
      if pks.isEmpty then .ok (checkRowsLoop cfg txn memBuffer snap zs [] 0 0)
      else if txn.batchGetOk then .ok (checkRowsLoop cfg txn memBuffer snap zs [] 0 0)
      else .error .storageErr

/-! ## Cascade engine (`FKCascadeExec`) -/

/-- The mutable accumulation state of one `FKCascadeExec`. -/
structure FKCascadeState where
  fkValuesSet : List (List Datum)
  fkValues : List (List Datum)
deriving DecidableEq, Repr

/-- `FKCascadeExec.onDeleteRow`: dedup-extract the referenced values and
buffer them; no storage access. -/
def onDeleteRow (colsOffsets : List Nat) (st : FKCascadeState) (row : List Datum) :
    Except FKError FKCascadeState :=
  match fetchFKValuesWithCheck st.fkValuesSet colsOffsets row with
  | .error e => .error e
  | .ok (vals, set2) =>
    if vals.isEmpty then .ok { st with fkValuesSet := set2 }
    else .ok { fkValuesSet := set2, fkValues := st.fkValues ++ [vals] }

/-- `plannercore.FKCascadeType`: only `FKCascadeOnDelete` is handled by
the `switch` in `buildFKCascadePlan`. -/
inductive FKCascadeType where
  | fkOnDelete : FKCascadeType
  | fkOther : FKCascadeType
deriving DecidableEq, Repr

/-- The session context as `buildFKCascadePlan` consumes it: whether it
implements `sqlexec.RestrictedSQLExecutor`, plus the parse / preprocess /
optimize collaborators (statements and plans abstracted as numbers). -/
structure SessCtx where
  restrictedSQLExec : Bool
  parseWithParams : String → Except FKError Nat
  preprocess : Nat → Except FKError Unit
  optimize : Nat → Except FKError Nat

/-- `buildFKCascadePlan`: nothing to do without buffered values; an
unhandled cascade kind leaves the SQL empty and is the generation fault;
a session context that is not a restricted SQL executor yields
`(nil, nil)`; otherwise parse, preprocess and optimize the generated
DELETE text. -/
def buildFKCascadePlan (sctx : SessCtx) (tp : FKCascadeType)
    (schemaL tableL : String) (colsL : List String)
    (fkValues : List (List Datum)) : Except FKError (Option Nat) :=
  if fkValues.isEmpty then .ok none
  else
    let sqlStr :=
      match tp with
      | .fkOnDelete => GenCascadeDeleteSQL schemaL tableL colsL fkValues
      | .fkOther => ""
    if sqlStr = "" then .error .cascadeErr
    else if sctx.restrictedSQLExec then
      match sctx.parseWithParams sqlStr with
      | .error e => .error e
      | .ok stmt =>
        match sctx.preprocess stmt with
        | .error e => .error e
        | .ok _ =>
          match sctx.optimize stmt with
          | .error e => .error e
          | .ok p => .ok (some p)
    else .ok none

/-- `FKCascadeExec.buildExecutor`: no plan (or a plan-build error) is
passed through; otherwise the executor builder runs on the plan. -/
def buildExecutor (sctx : SessCtx) (build : Nat → Except FKError Nat)
    (tp : FKCascadeType) (schemaL tableL : String) (colsL : List String)
    (fkValues : List (List Datum)) : Except FKError (Option Nat) :=
  match buildFKCascadePlan sctx tp schemaL tableL colsL fkValues with
  | .error e => .error e
  | .ok none => .ok none
  | .ok (some p) =>
    match build p with
    | .error e => .error e
    | .ok ex => .ok (some ex)

/-! ## Specification-side definitions

These follow the spec's words, not the source, and serve as the
comparison targets of the refinement claims. -/

/-- The transaction's merged point view: a buffered write wins over the
snapshot, and an empty buffered value (tombstone) means not-found.
This is the contract of `txn.Get` over the union store, used to
instantiate `Txn` with concrete buffer/snapshot contents. -/
def txnGet (memBuffer snap : Store) (k : Key) : GetResult :=
  match alookup memBuffer k with
  | some v => if v.isEmpty then .notFound else .found v
  | none =>
    match alookup snap k with
    | some v => .found v
    | none => .notFound

/-- A transaction whose reads come from concrete buffer/snapshot stores
and whose `BatchGet` warm-up succeeds. -/
def storeTxn (memBuffer snap : Store) : Txn :=
  { get := txnGet memBuffer snap, batchGetOk := true }

/-- Spec: a live entry for key `k` exists in the merged view (committed
snapshot plus local writes, with tombstoned keys removed). -/
def mergedLive (memBuffer snap : Store) (k : Key) : Bool :=
  match alookup memBuffer k with
  | some v => !v.isEmpty
  | none => (alookup snap k).isSome

/-- Spec: some key extending the prefix has a live entry in the merged
view (any such key occurs in one of the two stores). -/
def mergedLivePfx (memBuffer snap : Store) (pre : Key) : Bool :=
  (memBuffer ++ snap).any (fun e => pre.isPrefixOf e.1 && mergedLive memBuffer snap e.1)

/-- Spec: the first entry of an ordered range with a non-empty value. -/
def firstLiveEntry (es : Store) : Option (Key × Value) :=
  es.find? (fun e => !e.2.isEmpty)

/-- Spec: the keys tombstoned in the local range sharing the prefix. -/
def localTombstones (memBuffer : Store) (pre : Key) : List Key :=
  ((pfxEntries memBuffer pre).filter (fun e => e.2.isEmpty)).map Prod.fst

/-- Spec: the first entry of an ordered range whose key is not in the
skip-set. -/
def firstUnskipped (es : Store) (skip : List Key) : Option (Key × Value) :=
  es.find? (fun e => !memKey skip e.1)

/-- Spec: a key may be locked only when its existence was confirmed:
either it is a point key that the transaction read as live, or it is the
lock key derived from a live entry that the merge-scan found under one
of the prefix keys. -/
def confirmedLock (cfg : FKCfg) (txn : Txn) (memBuffer snap : Store)
    (ptKeys pfxKeys : List Key) (x : Key) : Prop :=
  (x ∈ ptKeys ∧ ∃ v, txn.get x = GetResult.found v) ∨
  (∃ p ∈ pfxKeys, ∃ kv, getIndexKeyValueInTable memBuffer snap p = some kv ∧
    kv.2.isEmpty = false ∧ x = cfg.lockKeyOfEntry kv.1 kv.2)

end FK

namespace FK

/-! ## Concrete instances used as proof witnesses -/

/-- A constraint configuration with `CheckExist`, an exclusive
primary-key match on column offset 0, and trivial collaborators. -/
def cfgT : FKCfg :=
  { checkExist := true, idxIsPrimaryKey := true, idxIsExclusive := true,
    colsOffsets := [0], recordKeyOf := fun _ => [9],
    genIndexKey := fun _ => ([2], true), lockKeyOfEntry := fun k _ => k }

/-- `cfgT` with the non-existence direction. -/
def cfgF : FKCfg :=
  { cfgT with checkExist := false }

/-- A non-ignored pending row with a single non-null value. -/
def rowA : PendingRow := { row := [Datum.int64 5], ignored := false }

/-- A non-ignored pending row with a null foreign-key column. -/
def rowN : PendingRow := { row := [Datum.null], ignored := false }

/-- A transaction whose every point read reports not-found. -/
def txnNF : Txn := { get := fun _ => .notFound, batchGetOk := true }

/-- A transaction whose every point read hits a storage fault while the
best-effort batch warm-up reports success. -/
def txnSF : Txn := { get := fun _ => .storageFault, batchGetOk := true }

/-- A session context that does not implement
`sqlexec.RestrictedSQLExecutor`. -/
def sctxN : SessCtx :=
  { restrictedSQLExec := false, parseWithParams := fun _ => .ok 0,
    preprocess := fun _ => .ok (), optimize := fun _ => .ok 0 }

end FK

namespace FK

/-! ## Helper lemmas -/

theorem memKey_iff (l : List Key) (k : Key) : memKey l k = true ↔ k ∈ l := by
  simp only [memKey, List.any_eq_true, decide_eq_true_eq]
  constructor
  · rintro ⟨x, hx, rfl⟩
    exact hx
  · intro h
    exact ⟨k, h, rfl⟩

theorem isPrefixOf_self (l : Key) : l.isPrefixOf l = true := by
  induction l with
  | nil => rfl
  | cons a t ih => simp [List.isPrefixOf, ih]

theorem alookup_mem {β : Type} (s : List (Key × β)) (k : Key) (v : β)
    (h : alookup s k = some v) : (k, v) ∈ s := by
  induction s with
  | nil => simp [alookup] at h
  | cons e rest ih =>
    obtain ⟨a, b⟩ := e
    by_cases hk : a = k
    · rw [alookup, if_pos hk] at h
      injection h with h2
      rw [← hk, ← h2]
      exact List.mem_cons_self _ _
    · rw [alookup, if_neg hk] at h
      exact List.mem_cons_of_mem _ (ih h)

theorem alookup_of_mem_nodup {β : Type} (s : List (Key × β)) (k : Key) (v : β)
    (hnd : (s.map Prod.fst).Nodup) (h : (k, v) ∈ s) : alookup s k = some v := by
  induction s with
  | nil => simp at h
  | cons e rest ih =>
    obtain ⟨a, b⟩ := e
    rw [List.map_cons, List.nodup_cons] at hnd
    rcases List.mem_cons.mp h with h1 | h1
    · have ha : a = k := congrArg Prod.fst h1.symm
      have hb : b = v := congrArg Prod.snd h1.symm
      subst ha
      subst hb
      rw [alookup, if_pos rfl]
    · have hne : a ≠ k := by
        intro hk
        subst hk
        exact hnd.1 (by simpa using List.mem_map_of_mem Prod.fst h1)
      rw [alookup, if_neg hne]
      exact ih hnd.2 h1

theorem alookup_none_not_mem {β : Type} (s : List (Key × β)) (k : Key) (v : β)
    (h : alookup s k = none) : (k, v) ∉ s := by
  induction s with
  | nil => simp
  | cons e rest ih =>
    obtain ⟨a, b⟩ := e
    by_cases hk : a = k
    · rw [alookup, if_pos hk] at h
      cases h
    · rw [alookup, if_neg hk] at h
      intro hmem
      rcases List.mem_cons.mp hmem with h1 | h1
      · exact hk (congrArg Prod.fst h1.symm)
      · exact ih h h1

theorem alookup_isSome_of_mem {β : Type} (s : List (Key × β)) (k : Key) (v : β)
    (h : (k, v) ∈ s) : (alookup s k).isSome = true := by
  induction s with
  | nil => simp at h
  | cons e rest ih =>
    obtain ⟨a, b⟩ := e
    by_cases hk : a = k
    · rw [alookup, if_pos hk]
      rfl
    · rw [alookup, if_neg hk]
      rcases List.mem_cons.mp h with h1 | h1
      · exact absurd (congrArg Prod.fst h1.symm) hk
      · exact ih h1

theorem memScanLoop_fst (key : Key) (es : Store) (acc : List Key)
    (hpre : ∀ e ∈ es, key.isPrefixOf e.1 = true) :
    (memScanLoop key es acc).1 = firstLiveEntry es := by
  induction es generalizing acc with
  | nil => rfl
  | cons e rest ih =>
    obtain ⟨k, v⟩ := e
    have hk : key.isPrefixOf k = true := hpre (k, v) (List.mem_cons_self _ _)
    have hrest : ∀ e ∈ rest, key.isPrefixOf e.1 = true :=
      fun e he => hpre e (List.mem_cons_of_mem _ he)
    cases hv : v.isEmpty with
    | true =>
      rw [memScanLoop, if_pos hk, if_pos hv, ih (k :: acc) hrest]
      simp [firstLiveEntry, List.find?, hv]
    | false =>
      rw [memScanLoop, if_pos hk, if_neg (by simp [hv])]
      simp [firstLiveEntry, List.find?, hv]

theorem memScanLoop_deleted (key : Key) (es : Store) (acc : List Key)
    (hpre : ∀ e ∈ es, key.isPrefixOf e.1 = true)
    (hnone : (memScanLoop key es acc).1 = none) (x : Key) :
    x ∈ (memScanLoop key es acc).2 ↔ x ∈ acc ∨ x ∈ es.map Prod.fst := by
  induction es generalizing acc with
  | nil => simp [memScanLoop]
  | cons e rest ih =>
    obtain ⟨k, v⟩ := e
    have hk : key.isPrefixOf k = true := hpre (k, v) (List.mem_cons_self _ _)
    have hrest : ∀ e ∈ rest, key.isPrefixOf e.1 = true :=
      fun e he => hpre e (List.mem_cons_of_mem _ he)
    cases hv : v.isEmpty with
    | true =>
      rw [memScanLoop, if_pos hk, if_pos hv] at hnone ⊢
      rw [ih (k :: acc) hrest hnone]
      simp only [List.mem_cons, List.map_cons]
      tauto
    | false =>
      rw [memScanLoop, if_pos hk, if_neg (by simp [hv])] at hnone
      cases hnone

theorem snapScanLoop_eq (key : Key) (deleted : List Key) (es : Store)
    (hpre : ∀ e ∈ es, key.isPrefixOf e.1 = true) :
    snapScanLoop key deleted es = firstUnskipped es deleted := by
  induction es with
  | nil => rfl
  | cons e rest ih =>
    obtain ⟨k, v⟩ := e
    have hk : key.isPrefixOf k = true := hpre (k, v) (List.mem_cons_self _ _)
    have hrest : ∀ e ∈ rest, key.isPrefixOf e.1 = true :=
      fun e he => hpre e (List.mem_cons_of_mem _ he)
    cases hd : memKey deleted k with
    | true =>
      rw [snapScanLoop, if_pos hk, if_pos hd, ih hrest]
      simp [firstUnskipped, List.find?, hd]
    | false =>
      rw [snapScanLoop, if_pos hk, if_neg (by simp [hd])]
      simp [firstUnskipped, List.find?, hd]

theorem pfxEntries_pre (store : Store) (key : Key) :
    ∀ e ∈ pfxEntries store key, key.isPrefixOf e.1 = true := by
  intro e he
  exact (List.mem_filter.mp he).2

theorem pfxEntries_sub (store : Store) (key : Key) :
    ∀ e ∈ pfxEntries store key, e ∈ store := by
  intro e he
  exact (List.mem_filter.mp he).1

theorem mem_pfxEntries (store : Store) (key : Key) (e : Key × Value)
    (hmem : e ∈ store) (hp : key.isPrefixOf e.1 = true) : e ∈ pfxEntries store key :=
  List.mem_filter.mpr ⟨hmem, hp⟩

/-- The merge-scan computed as the spec describes it: the first live
local entry if any, else the first snapshot entry not tombstoned
locally. -/
theorem mergeScan_eq (memBuffer snap : Store) (pre : Key) :
    getIndexKeyValueInTable memBuffer snap pre =
      (match firstLiveEntry (pfxEntries memBuffer pre) with
       | some kv => some kv
       | none => firstUnskipped (pfxEntries snap pre) (localTombstones memBuffer pre)) := by
  have hfst := memScanLoop_fst pre (pfxEntries memBuffer pre) [] (pfxEntries_pre _ _)
  rcases h1 : memScanLoop pre (pfxEntries memBuffer pre) [] with ⟨r, del⟩
  rw [h1] at hfst
  dsimp only at hfst
  cases r with
  | some kv =>
    simp only [getIndexKeyValueInTable, h1, ← hfst]
  | none =>
    simp only [getIndexKeyValueInTable, h1, ← hfst]
    rw [snapScanLoop_eq pre del (pfxEntries snap pre) (pfxEntries_pre _ _)]
    have hf2 : (pfxEntries memBuffer pre).find? (fun e => !e.2.isEmpty) = none := hfst.symm
    have halltomb : ∀ e ∈ pfxEntries memBuffer pre, e.2.isEmpty = true := by
      intro e he
      have := List.find?_eq_none.mp hf2 e he
      simpa using this
    have hlt : localTombstones memBuffer pre = (pfxEntries memBuffer pre).map Prod.fst := by
      rw [localTombstones, List.filter_eq_self.mpr halltomb]
    have hdel : ∀ x, memKey del x = memKey (localTombstones memBuffer pre) x := by
      intro x
      have hmem := memScanLoop_deleted pre (pfxEntries memBuffer pre) []
        (pfxEntries_pre _ _) (by rw [h1]) x
      rw [h1] at hmem
      dsimp only at hmem
      simp only [List.not_mem_nil, false_or] at hmem
      have hiff : x ∈ del ↔ x ∈ localTombstones memBuffer pre := by
        rw [hlt]
        exact hmem
      cases hx : memKey (localTombstones memBuffer pre) x with
      | true => exact (memKey_iff _ _).mpr (hiff.mpr ((memKey_iff _ _).mp hx))
      | false =>
        cases hx2 : memKey del x with
        | true =>
          exfalso
          have hxin : x ∈ localTombstones memBuffer pre := hiff.mp ((memKey_iff _ _).mp hx2)
          rw [← memKey_iff, hx] at hxin
          cases hxin
        | false => rfl
    rw [firstUnskipped, firstUnskipped]
    congr 1
    funext e
    rw [hdel e.1]

end FK

namespace FK

theorem mergedLivePfx_iff (memBuffer snap : Store) (pre : Key) :
    mergedLivePfx memBuffer snap pre = true ↔
      ∃ k, pre.isPrefixOf k = true ∧ mergedLive memBuffer snap k = true := by
  rw [mergedLivePfx, List.any_eq_true]
  constructor
  · rintro ⟨e, _, he⟩
    rw [Bool.and_eq_true] at he
    exact ⟨e.1, he.1, he.2⟩
  · rintro ⟨k, hp, hl⟩
    rcases hm : alookup memBuffer k with _ | v
    · rcases hs : alookup snap k with _ | w
      · exfalso
        rw [mergedLive, hm, hs] at hl
        simp at hl
      · exact ⟨(k, w), List.mem_append.mpr (Or.inr (alookup_mem snap k w hs)),
          by rw [Bool.and_eq_true]; exact ⟨hp, hl⟩⟩
    · exact ⟨(k, v), List.mem_append.mpr (Or.inl (alookup_mem memBuffer k v hm)),
        by rw [Bool.and_eq_true]; exact ⟨hp, hl⟩⟩

/-- When the merge-scan finds nothing, no key extending the prefix is
live in the merged view. -/
theorem mergeScan_none_live (memBuffer snap : Store) (pre : Key)
    (h : getIndexKeyValueInTable memBuffer snap pre = none) :
    mergedLivePfx memBuffer snap pre = false := by
  rw [mergeScan_eq] at h
  rcases hf : firstLiveEntry (pfxEntries memBuffer pre) with _ | kv
  · rw [hf] at h
    have halltomb : ∀ e ∈ pfxEntries memBuffer pre, e.2.isEmpty = true := by
      intro e he
      have := List.find?_eq_none.mp hf e he
      simpa using this
    have hlt : localTombstones memBuffer pre = (pfxEntries memBuffer pre).map Prod.fst := by
      rw [localTombstones, List.filter_eq_self.mpr halltomb]
    have hskipall : ∀ e ∈ pfxEntries snap pre, memKey (localTombstones memBuffer pre) e.1 = true := by
      intro e he
      have := List.find?_eq_none.mp h e he
      simpa using this
    cases hres : mergedLivePfx memBuffer snap pre with
    | false => rfl
    | true =>
      exfalso
      obtain ⟨k, hp, hl⟩ := (mergedLivePfx_iff memBuffer snap pre).mp hres
      rcases hm : alookup memBuffer k with _ | v
      · rw [mergedLive, hm] at hl
        rcases hs : alookup snap k with _ | w
        · rw [hs] at hl
          cases hl
        · have hin : (k, w) ∈ pfxEntries snap pre :=
            mem_pfxEntries snap pre (k, w) (alookup_mem snap k w hs) hp
          have hk := hskipall (k, w) hin
          rw [hlt] at hk
          obtain ⟨e2, he2, hke⟩ := List.mem_map.mp ((memKey_iff _ _).mp hk)
          have : (k, e2.2) ∈ memBuffer := by
            have := pfxEntries_sub memBuffer pre e2 he2
            rwa [show e2 = (k, e2.2) from Prod.ext hke rfl] at this
          exact absurd hm (by
            intro hnone
            exact alookup_none_not_mem memBuffer k e2.2 hnone this)
      · rw [mergedLive, hm] at hl
        have hin : (k, v) ∈ pfxEntries memBuffer pre :=
          mem_pfxEntries memBuffer pre (k, v) (alookup_mem memBuffer k v hm) hp
        have := halltomb (k, v) hin
        simp only [this] at hl
        cases hl
  · rw [hf] at h
    cases h

/-- When the merge-scan finds an entry, that entry is live and some key
extending the prefix is live in the merged view (given that the write
buffer has no duplicate keys and the committed snapshot contains no
empty values). -/
theorem mergeScan_some_live (memBuffer snap : Store) (pre : Key) (kv : Key × Value)
    (hnd : (memBuffer.map Prod.fst).Nodup)
    (hsnap : ∀ e ∈ snap, e.2.isEmpty = false)
    (h : getIndexKeyValueInTable memBuffer snap pre = some kv) :
    kv.2.isEmpty = false ∧ mergedLivePfx memBuffer snap pre = true := by
  rw [mergeScan_eq] at h
  rcases hf : firstLiveEntry (pfxEntries memBuffer pre) with _ | kv2
  · rw [hf] at h
    have hpred := List.find?_some h
    have hmem := List.mem_of_find?_eq_some h
    have hkv2 : kv ∈ snap := pfxEntries_sub snap pre kv hmem
    have hp : pre.isPrefixOf kv.1 = true := pfxEntries_pre snap pre kv hmem
    have hnotskip : memKey (localTombstones memBuffer pre) kv.1 = false := by
      have := hpred
      simp only [Bool.not_eq_true'] at this
      exact this
    refine ⟨hsnap kv hkv2, ?_⟩
    rw [mergedLivePfx_iff]
    refine ⟨kv.1, hp, ?_⟩
    rcases hm : alookup memBuffer kv.1 with _ | v
    · rw [mergedLive, hm]
      simpa using alookup_isSome_of_mem snap kv.1 kv.2 (by exact hkv2)
    · exfalso
      have hinmem : (kv.1, v) ∈ memBuffer := alookup_mem memBuffer kv.1 v hm
      have hinpfx : (kv.1, v) ∈ pfxEntries memBuffer pre :=
        mem_pfxEntries memBuffer pre (kv.1, v) hinmem hp
      have halltomb : ∀ e ∈ pfxEntries memBuffer pre, e.2.isEmpty = true := by
        intro e he
        have := List.find?_eq_none.mp hf e he
        simpa using this
      have hintomb : kv.1 ∈ localTombstones memBuffer pre := by
        rw [localTombstones]
        exact List.mem_map.mpr ⟨(kv.1, v),
          List.mem_filter.mpr ⟨hinpfx, by simpa using halltomb (kv.1, v) hinpfx⟩, rfl⟩
      rw [← memKey_iff, hnotskip] at hintomb
      cases hintomb
  · rw [hf] at h
    obtain rfl : kv2 = kv := by injection h
    have hpred := List.find?_some hf
    have hmem := List.mem_of_find?_eq_some hf
    have hlive : kv2.2.isEmpty = false := by
      simpa using hpred
    refine ⟨hlive, ?_⟩
    rw [mergedLivePfx_iff]
    have hp : pre.isPrefixOf kv2.1 = true := pfxEntries_pre memBuffer pre kv2 hmem
    refine ⟨kv2.1, hp, ?_⟩
    have hinmem : kv2 ∈ memBuffer := pfxEntries_sub memBuffer pre kv2 hmem
    have := alookup_of_mem_nodup memBuffer kv2.1 kv2.2 hnd (by exact hinmem)
    rw [mergedLive, this]
    simp [hlive]

end FK

namespace FK

/-! ## Claim C1 -/

/-- C1: for every checked key, with `CheckExist = true` the check fails
with the constraint-violation fault exactly when no live entry for the
key exists in the transaction's merged view (snapshot plus local writes,
tombstones removed), and with `CheckExist = false` exactly when a live
entry does exist — both for point keys (`checkKey` via `txn.Get`) and
for prefix keys (`checkPrefixKey` via the merge-scan), given a
duplicate-free write buffer and a snapshot of live committed entries. -/
theorem fk_check_iff_merged_view (cfg : FKCfg) (memBuffer snap : Store)
    (hnd : (memBuffer.map Prod.fst).Nodup)
    (hsnap : ∀ e ∈ snap, e.2.isEmpty = false) (k : Key) (locked : List Key) :
    (cfg.checkExist = true →
      ((checkKey cfg.checkExist (storeTxn memBuffer snap) k locked = .error .failedErr ↔
          mergedLive memBuffer snap k = false) ∧
        (checkPrefixKey cfg memBuffer snap k locked = .error .failedErr ↔
          mergedLivePfx memBuffer snap k = false))) ∧
    (cfg.checkExist = false →
      ((checkKey cfg.checkExist (storeTxn memBuffer snap) k locked = .error .failedErr ↔
          mergedLive memBuffer snap k = true) ∧
        (checkPrefixKey cfg memBuffer snap k locked = .error .failedErr ↔
          mergedLivePfx memBuffer snap k = true))) := by
  constructor
  · intro hce
    constructor
    · rcases hm : alookup memBuffer k with _ | v
      · rcases hs : alookup snap k with _ | w
        · simp [checkKey, checkKeyExist, storeTxn, txnGet, mergedLive, hm, hs, hce]
        · simp [checkKey, checkKeyExist, storeTxn, txnGet, mergedLive, hm, hs, hce]
      · cases hv : v.isEmpty with
        | true => simp [checkKey, checkKeyExist, storeTxn, txnGet, mergedLive, hm, hv, hce]
        | false => simp [checkKey, checkKeyExist, storeTxn, txnGet, mergedLive, hm, hv, hce]
    · rcases hr : getIndexKeyValueInTable memBuffer snap k with _ | kv
      · have hl := mergeScan_none_live memBuffer snap k hr
        simp [checkPrefixKey, hr, hce, checkPrefixKeyExist, hl]
      · have hl := mergeScan_some_live memBuffer snap k kv hnd hsnap hr
        simp [checkPrefixKey, hr, hce, checkPrefixKeyExist, hl.1, hl.2]
  · intro hce
    constructor
    · rcases hm : alookup memBuffer k with _ | v
      · rcases hs : alookup snap k with _ | w
        · simp [checkKey, checkKeyNotExist, storeTxn, txnGet, mergedLive, hm, hs, hce]
        · simp [checkKey, checkKeyNotExist, storeTxn, txnGet, mergedLive, hm, hs, hce]
      · cases hv : v.isEmpty with
        | true => simp [checkKey, checkKeyNotExist, storeTxn, txnGet, mergedLive, hm, hv, hce]
        | false => simp [checkKey, checkKeyNotExist, storeTxn, txnGet, mergedLive, hm, hv, hce]
    · rcases hr : getIndexKeyValueInTable memBuffer snap k with _ | kv
      · have hl := mergeScan_none_live memBuffer snap k hr
        simp [checkPrefixKey, hr, hce, checkPrefixKeyExist, hl]
      · have hl := mergeScan_some_live memBuffer snap k kv hnd hsnap hr
        simp [checkPrefixKey, hr, hce, checkPrefixKeyExist, hl.1, hl.2]

end FK

namespace FK

/-- Witness for C1 at a concrete buffer, snapshot and key. -/
theorem fk_check_iff_merged_view_w :
    ((([([1], [7])] : Store).map Prod.fst).Nodup) ∧
    (∀ e ∈ ([([2], [8])] : Store), e.2.isEmpty = false) ∧
    ((cfgT.checkExist = true →
      ((checkKey cfgT.checkExist (storeTxn [([1], [7])] [([2], [8])]) [1] [] =
          .error .failedErr ↔ mergedLive [([1], [7])] [([2], [8])] [1] = false) ∧
        (checkPrefixKey cfgT [([1], [7])] [([2], [8])] [1] [] = .error .failedErr ↔
          mergedLivePfx [([1], [7])] [([2], [8])] [1] = false))) ∧
    (cfgT.checkExist = false →
      ((checkKey cfgT.checkExist (storeTxn [([1], [7])] [([2], [8])]) [1] [] =
          .error .failedErr ↔ mergedLive [([1], [7])] [([2], [8])] [1] = true) ∧
        (checkPrefixKey cfgT [([1], [7])] [([2], [8])] [1] [] = .error .failedErr ↔
          mergedLivePfx [([1], [7])] [([2], [8])] [1] = true)))) :=
  ⟨by decide, by decide,
    fk_check_iff_merged_view cfgT [([1], [7])] [([2], [8])] (by decide) (by decide) [1] []⟩

/-! ## Claim C2 -/

/-- C2: in the prefix merge-scan, local tombstones hide snapshot keys:
the result is the first live local entry under the prefix if one exists,
otherwise the first snapshot entry under the prefix whose key is not in
the local tombstone skip-set, otherwise not-found; in particular a key
present in the snapshot and tombstoned in the write buffer resolves as
not existing. -/
theorem mergeScan_local_tombstones (memBuffer snap : Store) (pre : Key) :
    (getIndexKeyValueInTable memBuffer snap pre =
      (match firstLiveEntry (pfxEntries memBuffer pre) with
       | some kv => some kv
       | none => firstUnskipped (pfxEntries snap pre) (localTombstones memBuffer pre))) ∧
    (∀ (k : Key) (v : Value), getIndexKeyValueInTable [(k, [])] [(k, v)] k = none) := by
  refine ⟨mergeScan_eq memBuffer snap pre, ?_⟩
  intro k v
  have hself : k.isPrefixOf k = true := isPrefixOf_self k
  have hmk : memKey [k] k = true := (memKey_iff [k] k).mpr (List.mem_cons_self _ _)
  simp [getIndexKeyValueInTable, pfxEntries, memScanLoop, snapScanLoop, hself, hmk]

end FK

namespace FK

/-! ## Claim C3 -/

/-- C3: a row whose projected foreign-key tuple contains a NULL is
exempt everywhere: `fetchFKValuesWithCheck` returns no values and no
error and leaves the dedup set untouched, the per-row hook
(`addRowNeedToCheck`) leaves the whole check state untouched, the
cascade hook (`onDeleteRow`) leaves the cascade state untouched, and on
the tolerant `checkRows` path the row contributes a `none` slot and no
prefetch key.  None of these paths consults the transaction. -/
theorem nullRow_exempt (cfg : FKCfg) (st : FKCheckState) (cst : FKCascadeState)
    (r : PendingRow) (rest : List PendingRow) (vals : List Datum)
    (hfetch : fetchFKValues cfg.colsOffsets r.row = .ok vals)
    (hnull : hasNullValue vals = true)
    (hig : r.ignored = false) :
    fetchFKValuesWithCheck st.fkValuesSet cfg.colsOffsets r.row = .ok ([], st.fkValuesSet) ∧
    addRowNeedToCheck cfg st r.row = .ok st ∧
    onDeleteRow cfg.colsOffsets cst r.row = .ok cst ∧
    buildFKCheckKeys cfg (r :: rest) =
      (buildFKCheckKeys cfg rest).map (fun p => ((r, none) :: p.1, p.2)) := by
  have h1 : ∀ (set0 : List (List Datum)),
      fetchFKValuesWithCheck set0 cfg.colsOffsets r.row = .ok ([], set0) := by
    intro set0
    rw [fetchFKValuesWithCheck, hfetch]
    simp [hnull]
  refine ⟨h1 _, ?_, ?_, ?_⟩
  · rw [addRowNeedToCheck, h1 st.fkValuesSet]
    rfl
  · rw [onDeleteRow, h1 cst.fkValuesSet]
    rfl
  · rcases hb : buildFKCheckKeys cfg rest with e | pr
    · simp [buildFKCheckKeys, hig, hfetch, hnull, hb, Except.map]
    · simp [buildFKCheckKeys, hig, hfetch, hnull, hb, Except.map]

/-- Witness for C3 at a concrete null row. -/
theorem nullRow_exempt_w :
    fetchFKValues cfgT.colsOffsets rowN.row = .ok [Datum.null] ∧
    hasNullValue [Datum.null] = true ∧
    (fetchFKValuesWithCheck [] cfgT.colsOffsets rowN.row = .ok ([], []) ∧
      addRowNeedToCheck cfgT
        { fkValuesSet := [], toBeCheckedKeys := [], toBeCheckedPrefixKeys := [] } rowN.row =
        .ok { fkValuesSet := [], toBeCheckedKeys := [], toBeCheckedPrefixKeys := [] } ∧
      onDeleteRow cfgT.colsOffsets { fkValuesSet := [], fkValues := [] } rowN.row =
        .ok { fkValuesSet := [], fkValues := [] } ∧
      buildFKCheckKeys cfgT (rowN :: []) =
        (buildFKCheckKeys cfgT []).map (fun p => ((rowN, none) :: p.1, p.2))) :=
  ⟨rfl, rfl,
    nullRow_exempt cfgT
      { fkValuesSet := [], toBeCheckedKeys := [], toBeCheckedPrefixKeys := [] }
      { fkValuesSet := [], fkValues := [] } rowN [] [Datum.null] rfl rfl rfl⟩

/-! ## Claim C4 -/

/-- C4 counterexample: for the single text column with the single value
the code wraps the value tuple in its own parentheses, so the claimed
text `… IN (\x27x\x27)` is not what is produced. -/
theorem genCascadeDeleteSQL_single_cex :
    GenCascadeDeleteSQL "test" "child" ["name"] [[Datum.str "x"]] ≠
      "DELETE FROM `test`.`child` WHERE (`name`) IN (\x27x\x27)" := by decide

/-- C4 (amended): the two-column example is rendered exactly as claimed;
the single-column single-value example is rendered with the tuple's own
parentheses, `… IN ((\x27x\x27))`. -/
theorem genCascadeDeleteSQL_texts :
    GenCascadeDeleteSQL "test" "child" ["a", "b"]
        [[Datum.int64 1, Datum.int64 2], [Datum.int64 3, Datum.int64 4]] =
      "DELETE FROM `test`.`child` WHERE (`a`, `b`) IN ((1,2), (3,4))" ∧
    GenCascadeDeleteSQL "test" "child" ["name"] [[Datum.str "x"]] =
      "DELETE FROM `test`.`child` WHERE (`name`) IN ((\x27x\x27))" :=
  ⟨rfl, rfl⟩

end FK

namespace FK

/-! ## Claim C5 -/

/-- Once the cache answers for a key, every later state of the
`checkRows` verdict loop still answers the same for it: resolutions only
add entries for keys the cache did not know yet. -/
theorem checkRowsLoop_cache_mono (cfg : FKCfg) (txn : Txn) (memBuffer snap : Store) :
    ∀ (zs : List (PendingRow × Option (Key × Bool))) (cache : List (Key × Bool))
      (warns res : Nat) (k : Key) (b : Bool), alookup cache k = some b →
      alookup (checkRowsLoop cfg txn memBuffer snap zs cache warns res).2.1 k = some b := by
  intro zs
  induction zs with
  | nil =>
    intro cache warns res k b h
    exact h
  | cons z rest ih =>
    intro cache warns res k b h
    obtain ⟨r, slot⟩ := z
    cases slot with
    | none => exact ih cache warns res k b h
    | some kp =>
      rw [checkRowsLoop]
      rcases hc : alookup cache kp.1 with _ | ignore
      · have hne : kp.1 ≠ k := by
          intro he
          rw [he, h] at hc
          cases hc
        rcases hchk : (if kp.2 then checkPrefixKey cfg memBuffer snap kp.1 []
            else checkKey cfg.checkExist txn kp.1 []) with e | l2
        · exact ih _ _ _ k b (by rw [alookup, if_neg hne, alookup, if_neg hne]; exact h)
        · exact ih _ _ _ k b (by rw [alookup, if_neg hne]; exact h)
      · cases ignore with
        | true => exact ih cache _ res k b h
        | false => exact ih cache warns res k b h

/-- C5 counterexample: on the tolerant `checkRows` path the second row
with an identical foreign-key tuple is not a no-op — `checkRows` fetches
values without the dedup set, so both rows build the same check key and
the prefetch list carries it twice. -/
theorem checkRows_rebuilds_key_cex :
    buildFKCheckKeys cfgT [rowA, rowA] =
      .ok ([(rowA, some ([9], false)), (rowA, some ([9], false))], [[9], [9]]) := rfl

/-- C5 (amended): on the per-row hook path the dedup set makes any
second row whose projected foreign-key tuple is identical — the rows may
differ in their other columns — a complete no-op (the state is unchanged
and no key is built or enqueued); on the `checkRows` path every
non-ignored row rebuilds its key, but each distinct key is resolved
against the transaction at most once: a cache hit performs no resolution
and leaves the cache unchanged, and a cache miss records the key so that
all later equal keys hit the cache. -/
theorem fk_value_dedup (cfg : FKCfg) (txn : Txn) (memBuffer snap : Store) :
    (∀ (st st1 : FKCheckState) (row1 row2 vals : List Datum),
      fetchFKValues cfg.colsOffsets row1 = .ok vals →
      fetchFKValues cfg.colsOffsets row2 = .ok vals →
      addRowNeedToCheck cfg st row1 = .ok st1 → addRowNeedToCheck cfg st1 row2 = .ok st1) ∧
    (∀ (r : PendingRow) (kp : Key × Bool) (rest : List (PendingRow × Option (Key × Bool)))
        (cache : List (Key × Bool)) (warns res : Nat) (b : Bool),
      alookup cache kp.1 = some b →
      checkRowsLoop cfg txn memBuffer snap ((r, some kp) :: rest) cache warns res =
        ((if b then { r with ignored := true } else r) ::
          (checkRowsLoop cfg txn memBuffer snap rest cache
            (if b then warns + 1 else warns) res).1,
         (checkRowsLoop cfg txn memBuffer snap rest cache
            (if b then warns + 1 else warns) res).2)) ∧
    (∀ (r : PendingRow) (kp : Key × Bool) (rest : List (PendingRow × Option (Key × Bool)))
        (cache : List (Key × Bool)) (warns res : Nat),
      alookup cache kp.1 = none →
      alookup (checkRowsLoop cfg txn memBuffer snap
        ((r, some kp) :: rest) cache warns res).2.1 kp.1 = some false) := by
  refine ⟨?_, ?_, ?_⟩
  · intro st st1 row1 row2 vals hf1 hf2 h
    by_cases hn : hasNullValue vals = true
    · have hst : st1 = st := by
        rw [addRowNeedToCheck, fetchFKValuesWithCheck, hf1] at h
        dsimp only at h
        rw [if_pos hn] at h
        dsimp only at h
        rw [if_pos (show ([] : List Datum).isEmpty = true from rfl)] at h
        injection h with h2
        rw [← h2]
      subst hst
      rw [addRowNeedToCheck, fetchFKValuesWithCheck, hf2]
      dsimp only
      rw [if_pos hn]
      rfl
    · by_cases hc : st.fkValuesSet.contains vals = true
      · have hst : st1 = st := by
          rw [addRowNeedToCheck, fetchFKValuesWithCheck, hf1] at h
          dsimp only at h
          rw [if_neg hn, if_pos hc] at h
          dsimp only at h
          rw [if_pos (show ([] : List Datum).isEmpty = true from rfl)] at h
          injection h with h2
          rw [← h2]
        subst hst
        rw [addRowNeedToCheck, fetchFKValuesWithCheck, hf2]
        dsimp only
        rw [if_neg hn, if_pos hc]
        rfl
      · have hset : st1.fkValuesSet = vals :: st.fkValuesSet := by
          rw [addRowNeedToCheck, fetchFKValuesWithCheck, hf1] at h
          dsimp only at h
          rw [if_neg hn, if_neg hc] at h
          dsimp only at h
          cases hv : vals.isEmpty with
          | true =>
            rw [if_pos hv] at h
            injection h with h2
            rw [← h2]
          | false =>
            rw [if_neg (by simp [hv])] at h
            rcases hkp : buildCheckKeyFromFKValue cfg vals with ⟨key, isPfx⟩
            rw [hkp] at h
            dsimp only at h
            cases isPfx with
            | true =>
              rw [if_pos rfl] at h
              injection h with h2
              rw [← h2]
            | false =>
              rw [if_neg (by simp)] at h
              injection h with h2
              rw [← h2]
        have hc1 : st1.fkValuesSet.contains vals = true := by
          rw [hset]
          simp
        rw [addRowNeedToCheck, fetchFKValuesWithCheck, hf2]
        dsimp only
        rw [if_neg hn, if_pos hc1]
        rfl
  · intro r kp rest cache warns res b h
    rw [checkRowsLoop, h]
    cases b with
    | true => simp
    | false => simp
  · intro r kp rest cache warns res h
    rw [checkRowsLoop, h]
    rcases hchk : (if kp.2 then checkPrefixKey cfg memBuffer snap kp.1 []
        else checkKey cfg.checkExist txn kp.1 []) with e | l2
    · exact checkRowsLoop_cache_mono cfg txn memBuffer snap rest _ _ _ kp.1 false
        (by rw [alookup, if_pos rfl])
    · exact checkRowsLoop_cache_mono cfg txn memBuffer snap rest _ _ _ kp.1 false
        (by rw [alookup, if_pos rfl])

/-- Witness for C5's amended theorem: two distinct rows that differ in a
non-foreign-key column but project to the same tuple — the second hook
call is a no-op on the already-updated state. -/
theorem fk_value_dedup_w :
    addRowNeedToCheck cfgT
      { fkValuesSet := [[Datum.int64 5]], toBeCheckedKeys := [[9]],
        toBeCheckedPrefixKeys := [] } [Datum.int64 5, Datum.int64 2] =
      .ok { fkValuesSet := [[Datum.int64 5]], toBeCheckedKeys := [[9]],
            toBeCheckedPrefixKeys := [] } :=
  (fk_value_dedup cfgT txnNF [] []).1
    { fkValuesSet := [], toBeCheckedKeys := [], toBeCheckedPrefixKeys := [] }
    { fkValuesSet := [[Datum.int64 5]], toBeCheckedKeys := [[9]],
      toBeCheckedPrefixKeys := [] }
    [Datum.int64 5, Datum.int64 1] [Datum.int64 5, Datum.int64 2] [Datum.int64 5]
    rfl rfl rfl

end FK


namespace FK

/-! ## Claim C6 -/

/-- A successful `checkKey` either leaves the lock list unchanged or —
only in the existence direction — appends exactly the key it read as
live. -/
theorem checkKey_ok_locked (ce : Bool) (txn : Txn) (k : Key) (locked l2 : List Key)
    (h : checkKey ce txn k locked = .ok l2) :
    l2 = locked ∨ (l2 = locked ++ [k] ∧ ce = true ∧ ∃ v, txn.get k = .found v) := by
  cases ce with
  | true =>
    rcases hg : txn.get k with v | _ | _
    · rw [checkKey, if_pos rfl, checkKeyExist, hg] at h
      injection h with h2
      exact Or.inr ⟨h2.symm, rfl, v, rfl⟩
    · rw [checkKey, if_pos rfl, checkKeyExist, hg] at h
      cases h
    · rw [checkKey, if_pos rfl, checkKeyExist, hg] at h
      cases h
  | false =>
    rcases hg : txn.get k with v | _ | _
    · rw [checkKey, if_neg (by simp), checkKeyNotExist, hg] at h
      cases h
    · rw [checkKey, if_neg (by simp), checkKeyNotExist, hg] at h
      injection h with h2
      exact Or.inl h2.symm
    · rw [checkKey, if_neg (by simp), checkKeyNotExist, hg] at h
      cases h

/-- A successful `checkPrefixKey` either leaves the lock list unchanged
or — only in the existence direction — appends exactly the lock key
derived from the live entry the merge-scan found. -/
theorem checkPrefixKey_ok_locked (cfg : FKCfg) (memBuffer snap : Store) (p : Key)
    (locked l2 : List Key) (h : checkPrefixKey cfg memBuffer snap p locked = .ok l2) :
    l2 = locked ∨ (cfg.checkExist = true ∧ ∃ kv,
      getIndexKeyValueInTable memBuffer snap p = some kv ∧ kv.2.isEmpty = false ∧
      l2 = locked ++ [cfg.lockKeyOfEntry kv.1 kv.2]) := by
  rcases hr : getIndexKeyValueInTable memBuffer snap p with _ | kv
  · rw [checkPrefixKey, hr] at h
    simp only [Option.map_none', Option.getD_none] at h
    cases hce : cfg.checkExist with
    | true =>
      rw [hce, if_pos rfl, checkPrefixKeyExist] at h
      rw [if_pos (show ([] : Value).isEmpty = true from rfl)] at h
      cases h
    | false =>
      rw [hce, if_neg (by simp)] at h
      rw [if_pos (show ([] : Value).isEmpty = true from rfl)] at h
      injection h with h2
      exact Or.inl h2.symm
  · rw [checkPrefixKey, hr] at h
    simp only [Option.map_some', Option.getD_some] at h
    cases hce : cfg.checkExist with
    | true =>
      rw [hce, if_pos rfl, checkPrefixKeyExist] at h
      cases hv : kv.2.isEmpty with
      | true =>
        rw [if_pos hv] at h
        cases h
      | false =>
        rw [if_neg (by simp [hv])] at h
        injection h with h2
        exact Or.inr ⟨rfl, kv, rfl, hv, h2.symm⟩
    | false =>
      rw [hce, if_neg (by simp)] at h
      cases hv : kv.2.isEmpty with
      | true =>
        rw [if_pos hv] at h
        injection h with h2
        exact Or.inl h2.symm
      | false =>
        rw [if_neg (by simp [hv])] at h
        cases h

/-- Keys accumulated by the point-key loop are carried over or confirmed
live among the scanned keys. -/
theorem checkKeysLoop_locked (ce : Bool) (txn : Txn) :
    ∀ (ks locked l2 : List Key), checkKeysLoop ce txn ks locked = .ok l2 →
      ∀ x ∈ l2, x ∈ locked ∨ (ce = true ∧ x ∈ ks ∧ ∃ v, txn.get x = .found v) := by
  intro ks
  induction ks with
  | nil =>
    intro locked l2 h x hx
    rw [checkKeysLoop] at h
    injection h with h2
    rw [← h2] at hx
    exact Or.inl hx
  | cons k rest ih =>
    intro locked l2 h x hx
    rw [checkKeysLoop] at h
    rcases hc : checkKey ce txn k locked with e | lk2
    · rw [hc] at h
      cases h
    · rw [hc] at h
      rcases ih lk2 l2 h x hx with h1 | h1
      · rcases checkKey_ok_locked ce txn k locked lk2 hc with h2 | h2
        · rw [h2] at h1
          exact Or.inl h1
        · rw [h2.1] at h1
          rcases List.mem_append.mp h1 with h3 | h3
          · exact Or.inl h3
          · have hxk : x = k := by simpa using h3
            subst hxk
            exact Or.inr ⟨h2.2.1, List.mem_cons_self _ _, h2.2.2⟩
      · exact Or.inr ⟨h1.1, List.mem_cons_of_mem _ h1.2.1, h1.2.2⟩

/-- Keys accumulated by the prefix-key loop are carried over or derived
from a live merge-scan match among the scanned prefixes. -/
theorem checkIndexKeysLoop_locked (cfg : FKCfg) (memBuffer snap : Store) :
    ∀ (ks locked l2 : List Key), checkIndexKeysLoop cfg memBuffer snap ks locked = .ok l2 →
      ∀ x ∈ l2, x ∈ locked ∨ (cfg.checkExist = true ∧ ∃ p ∈ ks, ∃ kv,
        getIndexKeyValueInTable memBuffer snap p = some kv ∧ kv.2.isEmpty = false ∧
        x = cfg.lockKeyOfEntry kv.1 kv.2) := by
  intro ks
  induction ks with
  | nil =>
    intro locked l2 h x hx
    rw [checkIndexKeysLoop] at h
    injection h with h2
    rw [← h2] at hx
    exact Or.inl hx
  | cons k rest ih =>
    intro locked l2 h x hx
    rw [checkIndexKeysLoop] at h
    rcases hc : checkPrefixKey cfg memBuffer snap k locked with e | lk2
    · rw [hc] at h
      cases h
    · rw [hc] at h
      rcases ih lk2 l2 h x hx with h1 | h1
      · rcases checkPrefixKey_ok_locked cfg memBuffer snap k locked lk2 hc with h2 | h2
        · rw [h2] at h1
          exact Or.inl h1
        · obtain ⟨hce, kv, hkv, hlive, hl2⟩ := h2
          rw [hl2] at h1
          rcases List.mem_append.mp h1 with h3 | h3
          · exact Or.inl h3
          · have hxk : x = cfg.lockKeyOfEntry kv.1 kv.2 := by simpa using h3
            exact Or.inr ⟨hce, k, List.mem_cons_self _ _, kv, hkv, hlive, hxk⟩
      · obtain ⟨hce, p, hp, rest2⟩ := h1
        exact Or.inr ⟨hce, p, List.mem_cons_of_mem _ hp, rest2⟩

/-- C6: after `doCheck`'s resolution phase, every to-be-locked key was
confirmed: either it is a point key read as live, or it is the lock key
of a live entry found by the merge-scan under one of the prefix keys;
and with `CheckExist = false` the locked set is empty. -/
theorem lockedKeys_subset_confirmed (cfg : FKCfg) (txn : Txn) (memBuffer snap : Store)
    (ptKeys pfxKeys locked : List Key)
    (h : doCheckLocked cfg txn memBuffer snap ptKeys pfxKeys = .ok locked) :
    (∀ x ∈ locked, confirmedLock cfg txn memBuffer snap ptKeys pfxKeys x) ∧
    (cfg.checkExist = false → locked = []) := by
  rw [doCheckLocked] at h
  rcases h1 : checkKeys cfg.checkExist txn ptKeys [] with e | l1
  · rw [h1] at h
    cases h
  · rw [h1] at h
    dsimp only at h
    have hpt : ∀ x ∈ l1, cfg.checkExist = true ∧ x ∈ ptKeys ∧ ∃ v, txn.get x = .found v := by
      intro x hx
      rw [checkKeys] at h1
      by_cases he : ptKeys.isEmpty = true
      · rw [if_pos he] at h1
        injection h1 with h2
        rw [← h2] at hx
        cases hx
      · rw [if_neg he] at h1
        cases hb : txn.batchGetOk with
        | true =>
          rw [hb, if_pos rfl] at h1
          rcases checkKeysLoop_locked cfg.checkExist txn ptKeys [] l1 h1 x hx with h3 | h3
          · cases h3
          · exact h3
        | false =>
          rw [hb, if_neg (by simp)] at h1
          cases h1
    have hfull : ∀ x ∈ locked, x ∈ l1 ∨ (cfg.checkExist = true ∧ ∃ p ∈ pfxKeys, ∃ kv,
        getIndexKeyValueInTable memBuffer snap p = some kv ∧ kv.2.isEmpty = false ∧
        x = cfg.lockKeyOfEntry kv.1 kv.2) := by
      intro x hx
      rw [checkIndexKeys] at h
      by_cases he : pfxKeys.isEmpty = true
      · rw [if_pos he] at h
        injection h with h2
        rw [← h2] at hx
        exact Or.inl hx
      · rw [if_neg he] at h
        exact checkIndexKeysLoop_locked cfg memBuffer snap pfxKeys l1 locked h x hx
    constructor
    · intro x hx
      rcases hfull x hx with h2 | h2
      · exact Or.inl ⟨(hpt x h2).2.1, (hpt x h2).2.2⟩
      · exact Or.inr h2.2
    · intro hce
      cases hl : locked with
      | nil => rfl
      | cons y ys =>
        exfalso
        have hy : y ∈ locked := by
          rw [hl]
          exact List.mem_cons_self _ _
        rcases hfull y hy with h2 | h2
        · rw [(hpt y h2).1] at hce
          cases hce
        · rw [h2.1] at hce
          cases hce

/-- Witness for C6: a point key read as live ends up locked and
confirmed. -/
theorem lockedKeys_subset_confirmed_w :
    (∀ x ∈ ([[9]] : List Key), confirmedLock cfgT (storeTxn [] [([9], [7])]) [] []
      [[9]] [] x) ∧
    (cfgT.checkExist = false → ([[9]] : List Key) = []) :=
  lockedKeys_subset_confirmed cfgT (storeTxn [] [([9], [7])]) [] [] [[9]] [] [[9]] rfl

end FK

namespace FK

/-! ## Claim C7 -/

/-- A faulting point read makes `checkKey` propagate the storage error
in both constraint directions. -/
theorem checkKey_fault (ce : Bool) (txn : Txn) (k : Key) (locked : List Key)
    (h : txn.get k = .storageFault) : checkKey ce txn k locked = .error .storageErr := by
  cases ce with
  | true => rw [checkKey, if_pos rfl, checkKeyExist, h]
  | false => rw [checkKey, if_neg (by simp), checkKeyNotExist, h]

/-- The point-key loop never succeeds while one of its keys faults. -/
theorem checkKeysLoop_fault (ce : Bool) (txn : Txn) :
    ∀ (ks locked : List Key) (k : Key), k ∈ ks → txn.get k = .storageFault →
      ∀ out, checkKeysLoop ce txn ks locked ≠ .ok out := by
  intro ks
  induction ks with
  | nil =>
    intro locked k hk
    simp at hk
  | cons k0 rest ih =>
    intro locked k hk hf out h
    rw [checkKeysLoop] at h
    rcases List.mem_cons.mp hk with h1 | h1
    · subst h1
      rw [checkKey_fault ce txn k locked hf] at h
      cases h
    · rcases hc : checkKey ce txn k0 locked with e | lk2
      · rw [hc] at h
        cases h
      · rw [hc] at h
        exact ih lk2 k h1 hf out h

/-- C7 counterexample: a storage fault while resolving a row's key in
`checkRows` does not abort — the row is marked ignored, a
constraint-violation warning is appended, and `checkRows` returns
success. -/
theorem checkRows_swallows_fault_cex :
    checkRows cfgT txnSF [] [] [rowA] =
      .ok ([{ row := [Datum.int64 5], ignored := true }],
           [([9], false), ([9], true)], 1, 1) := rfl

/-- C7 (amended): a transaction read failure not classified as not-found
propagates and aborts on the `doCheck` path (`checkKey` returns it, and
`doCheck`'s point phase can never succeed while a checked key faults);
on the tolerant `checkRows` path, however, any per-key resolution
failure — storage faults included — is downgraded to an ignored row
plus a warning and the loop continues. -/
theorem storage_fault_propagation (cfg : FKCfg) (memBuffer snap : Store) :
    (∀ (ce : Bool) (txn : Txn) (k : Key) (locked : List Key),
      txn.get k = .storageFault → checkKey ce txn k locked = .error .storageErr) ∧
    (∀ (txn : Txn) (ptKeys pfxKeys : List Key) (k : Key), k ∈ ptKeys →
      txn.get k = .storageFault →
      ∀ res, doCheckLocked cfg txn memBuffer snap ptKeys pfxKeys ≠ .ok res) ∧
    (∀ (txn : Txn) (r : PendingRow) (k : Key)
        (rest : List (PendingRow × Option (Key × Bool)))
        (cache : List (Key × Bool)) (warns res : Nat),
      alookup cache k = none → txn.get k = .storageFault →
      checkRowsLoop cfg txn memBuffer snap ((r, some (k, false)) :: rest) cache warns res =
        ({ r with ignored := true } ::
          (checkRowsLoop cfg txn memBuffer snap rest
            ((k, false) :: (k, true) :: cache) (warns + 1) (res + 1)).1,
         (checkRowsLoop cfg txn memBuffer snap rest
            ((k, false) :: (k, true) :: cache) (warns + 1) (res + 1)).2)) := by
  refine ⟨checkKey_fault, ?_, ?_⟩
  · intro txn ptKeys pfxKeys k hk hf res h
    rw [doCheckLocked] at h
    rcases h1 : checkKeys cfg.checkExist txn ptKeys [] with e | l1
    · rw [h1] at h
      cases h
    · rw [checkKeys] at h1
      have hne : ptKeys.isEmpty = false := by
        cases ptKeys with
        | nil => simp at hk
        | cons a t => rfl
      rw [hne, if_neg (by simp)] at h1
      cases hb : txn.batchGetOk with
      | true =>
        rw [hb, if_pos rfl] at h1
        exact checkKeysLoop_fault cfg.checkExist txn ptKeys [] k hk hf l1 h1
      | false =>
        rw [hb, if_neg (by simp)] at h1
        cases h1
  · intro txn r k rest cache warns res hcache hf
    rw [checkRowsLoop]
    dsimp only
    rw [hcache]
    dsimp only
    rw [if_neg (show ¬ (false = true) by simp), checkKey_fault cfg.checkExist txn k [] hf]

/-- Witness for C7's amended theorem at a concrete faulting read. -/
theorem storage_fault_propagation_w :
    checkKey true txnSF [9] [] = .error .storageErr :=
  (storage_fault_propagation cfgT [] []).1 true txnSF [9] [] rfl

/-! ## Claim C8 -/

/-- C8 (evaluation at the failing input): with two rows sharing the same
missing key, `checkRows` stores the failing verdict and immediately
overwrites it with a passing one — the cache front holds `false` for the
key — so the second row hits the cache, is NOT marked ignored and gets
no warning: only one row is ignored and only one warning is appended,
where the claim expects both rows ignored and two warnings. -/
theorem checkRows_cache_overwrite :
    checkRows cfgT txnNF [] [] [rowA, rowA] =
      .ok ([{ row := [Datum.int64 5], ignored := true },
            { row := [Datum.int64 5], ignored := false }],
           [([9], false), ([9], true)], 1, 1) := rfl

end FK

namespace FK

/-! ## Claim C9 -/

/-- C9: `buildCheckKeyFromFKValue` flags a prefix exactly when the
matching key is not exclusive, and a primary-key match always yields a
point key.  `IdxIsExclusive` for primary keys and the distinctness of
`GenIndexKey` on null-free tuples are set by the plan builder and index
collaborator outside this repository; they enter as the two
spec-modelled hypotheses (primary keys are exclusive by definition, and
a unique index yields a distinct key on a null-free tuple). -/
theorem buildCheckKey_point_iff (cfg : FKCfg) (vals : List Datum)
    (hpk : cfg.idxIsPrimaryKey = true → cfg.idxIsExclusive = true)
    (hdist : (cfg.genIndexKey vals).2 = cfg.idxIsExclusive) :
    ((buildCheckKeyFromFKValue cfg vals).2 = true ↔ cfg.idxIsExclusive = false) ∧
    (cfg.idxIsPrimaryKey = true → (buildCheckKeyFromFKValue cfg vals).2 = false) := by
  cases hp : cfg.idxIsPrimaryKey with
  | true =>
    have he := hpk hp
    constructor
    · rw [buildCheckKeyFromFKValue, if_pos hp, if_pos he]
      simp [he]
    · intro _
      rw [buildCheckKeyFromFKValue, if_pos hp, if_pos he]
  | false =>
    constructor
    · rcases hgi : cfg.genIndexKey vals with ⟨key, distinct⟩
      rw [hgi] at hdist
      dsimp only at hdist
      rw [buildCheckKeyFromFKValue, if_neg (by simp [hp]), hgi]
      dsimp only
      cases hex : cfg.idxIsExclusive with
      | true =>
        rw [hex] at hdist
        rw [hdist]
        simp
      | false =>
        rw [hex] at hdist
        rw [hdist]
        simp
    · intro hcontra
      cases hcontra

/-- Witness for C9 at an exclusive primary-key configuration. -/
theorem buildCheckKey_point_iff_w :
    (((buildCheckKeyFromFKValue cfgT [Datum.int64 5]).2 = true ↔
        cfgT.idxIsExclusive = false) ∧
      (cfgT.idxIsPrimaryKey = true →
        (buildCheckKeyFromFKValue cfgT [Datum.int64 5]).2 = false)) :=
  buildCheckKey_point_iff cfgT [Datum.int64 5] (fun _ => rfl) rfl

/-! ## Claim C10 -/

/-- The generated cascade DELETE text is never the empty string. -/
theorem genCascadeDeleteSQL_ne_empty (schemaL tableL : String) (colsL : List String)
    (fkValues : List (List Datum)) :
    GenCascadeDeleteSQL schemaL tableL colsL fkValues ≠ "" := by
  intro h
  have h2 := congrArg String.length h
  rw [GenCascadeDeleteSQL] at h2
  simp only [String.length_append] at h2
  have e1 : ("DELETE FROM `" : String).length = 13 := rfl
  have e2 : ("" : String).length = 0 := rfl
  rw [e1, e2] at h2
  omega

/-- C10: with buffered values and a session context that is not a
restricted SQL executor, `buildFKCascadePlan` generates the DELETE text
and then returns `(nil, nil)` at the failed type assertion, so
`buildExecutor` returns no executor and no error. -/
theorem buildExecutor_nonrestricted (sctx : SessCtx) (build : Nat → Except FKError Nat)
    (schemaL tableL : String) (colsL : List String) (fkValues : List (List Datum))
    (hr : sctx.restrictedSQLExec = false) (hv : fkValues ≠ []) :
    buildExecutor sctx build .fkOnDelete schemaL tableL colsL fkValues = .ok none := by
  have hne : fkValues.isEmpty = false := by
    cases fkValues with
    | nil => exact absurd rfl hv
    | cons a t => rfl
  rw [buildExecutor, buildFKCascadePlan, hne, if_neg (by simp)]
  dsimp only
  rw [if_neg (genCascadeDeleteSQL_ne_empty schemaL tableL colsL fkValues)]
  rw [hr, if_neg (by simp)]

/-- Witness for C10 at a concrete non-restricted session context. -/
theorem buildExecutor_nonrestricted_w :
    buildExecutor sctxN (fun n => .ok n) .fkOnDelete "test" "child" ["a"]
      [[Datum.int64 1]] = .ok none :=
  buildExecutor_nonrestricted sctxN (fun n => .ok n) "test" "child" ["a"]
    [[Datum.int64 1]] rfl (List.cons_ne_nil _ _)

end FK
